import Mathlib

/-!
Shallow embedding of the knowledge-graph CLI (concept extraction, graph merge
semantics, co-occurrence edges, retrieval scoring, search-mode selection,
community detection and batch ingestion), together with theorems settling the
specification claims about it.

The repository holds three close variants of the program; definitions below are
grouped by variant: namespace `KG` embeds `knowledge-graph.js` (both the
enhanced and the legacy copy, which share the relevant routines) and namespace
`P2` embeds the `KnowledgeGraphCLI` variant.  External collaborators
(the `natural` tokenizer/stemmer/stop-word list, the Neo4j store) are
parameters or explicit oracles.
-/

namespace KGV

/-- Boolean prefix test on character lists. -/
def listPrefix : List Char → List Char → Bool
  | [], _ => true
  | _ :: _, [] => false
  | a :: as, b :: bs => a == b && listPrefix as bs

/-- Boolean infix (substring) test on character lists. -/
def listInfix (nee : List Char) : List Char → Bool
  | [] => listPrefix nee []
  | c :: rest => listPrefix nee (c :: rest) || listInfix nee rest

/-- JS `hay.includes(nee)`: does `hay` contain `nee` as a substring? -/
def strContains (hay nee : String) : Bool :=
  listInfix nee.data hay.data

/-- `text.toLowerCase()` (character-wise; the sources hold ASCII text). -/
def lowerStr (s : String) : String :=
  String.mk (s.data.map Char.toLower)

/-- `s.trim()`: strip leading and trailing whitespace. -/
def strTrim (s : String) : String :=
  String.mk
    (((s.data.dropWhile Char.isWhitespace).reverse.dropWhile Char.isWhitespace).reverse)

/-- `s.substring(0, n)`: the first `n` characters. -/
def strTake (s : String) (n : Nat) : String :=
  String.mk (s.data.take n)

/-- One counting step of the JS frequency object `freq[w] = (freq[w]||0)+1`:
bump the first entry keyed `w`, or append a fresh `(w, 1)` entry (JS objects
keep string keys in insertion order). -/
def bumpCount : List (String × Nat) → String → List (String × Nat)
  | [], w => [(w, 1)]
  | (k, v) :: rest, w =>
    if k == w then (k, v + 1) :: rest else (k, v) :: bumpCount rest w

/-- Frequency counting of a token list, entries in first-insertion order
(models the `wordFreq` object followed by `Object.entries`). -/
def countStems (ws : List String) : List (String × Nat) :=
  ws.foldl bumpCount []

/-- Keys of an association list. -/
def keys (l : List (String × Nat)) : List String :=
  l.map Prod.fst

/-- Lookup in a `(name, frequency)` association list. -/
def lookupFreq (l : List (String × Nat)) (n : String) : Option Nat :=
  (l.find? (fun p => p.1 == n)).map (·.2)

/-- Insert a pair into a list sorted by descending frequency, after every
strictly larger entry and before equal ones that arrive later in the input
(the stable placement of JS `Array.prototype.sort`). -/
def insertDesc (p : String × Nat) : List (String × Nat) → List (String × Nat)
  | [] => [p]
  | q :: rest => if p.2 < q.2 then q :: insertDesc p rest else p :: q :: rest

/-- Stable sort by descending frequency, the semantics of
`.sort((a, b) => b[1] - a[1])` (JS sort is stable). -/
def sortDesc (l : List (String × Nat)) : List (String × Nat) :=
  l.foldr insertDesc []

namespace KG

/-- The `/^\d+$/` purely-numeric token test. -/
def isNumericTok (t : String) : Bool :=
  decide (0 < t.length) && t.data.all Char.isDigit

/-- Token filter of `extractConcepts`: keep tokens longer than 2 characters
that are not purely numeric and not stop words. -/
def tokenKeep (stop : List String) (t : String) : Bool :=
  decide (2 < t.length) && !isNumericTok t && !stop.contains t

/-- Concept filter of `extractConcepts`: `freq > 1 || word.length > 4`. -/
def conceptKeep (p : String × Nat) : Bool :=
  decide (1 < p.2) || decide (4 < p.1.length)

/-- `extractConcepts(text)`: tokenize the lower-cased text, filter, stem,
count stem frequencies, keep candidates passing `conceptKeep`, sort by
descending frequency (stably) and cap at the top 50. -/
def extractConcepts (tok : String → List String) (stem : String → String)
    (stop : List String) (text : String) : List (String × Nat) :=
  let tokens := tok (lowerStr text)
  let filtered := tokens.filter (tokenKeep stop)
  let wordFreq := countStems (filtered.map stem)
  (sortDesc (wordFreq.filter conceptKeep)).take 50

/-- The counted stem frequencies of `extractConcepts` (its `wordFreq`
object, before the keep filter). -/
def extractCounted (tok : String → List String) (stem : String → String)
    (stop : List String) (text : String) : List (String × Nat) :=
  countStems (((tok (lowerStr text)).filter (tokenKeep stop)).map stem)

/-- The uncapped candidate list of `extractConcepts`: the counted stems
passing the keep filter, stably sorted by descending frequency (the list
just before `.slice(0, 50)`). -/
def extractSorted (tok : String → List String) (stem : String → String)
    (stop : List String) (text : String) : List (String × Nat) :=
  sortDesc ((extractCounted tok stem stop text).filter conceptKeep)

/-- The per-concept merge of `ingestFile`/`ingestUrl`:
`MERGE (c:Concept {name: n}) ON CREATE SET c.frequency = f
 ON MATCH SET c.frequency = c.frequency + f`. -/
def upsertConcept : List (String × Nat) → String → Nat → List (String × Nat)
  | [], n, f => [(n, f)]
  | (k, v) :: rest, n, f =>
    if k == n then (k, v + f) :: rest else (k, v) :: upsertConcept rest n f

/-- The concept loop of one ingestion: merge every extracted candidate. -/
def ingestConcepts (store : List (String × Nat)) (cs : List (String × Nat)) :
    List (String × Nat) :=
  cs.foldl (fun st c => upsertConcept st c.1 c.2) store

/-- Does the stored edge endpoint pair `e` match the unordered pair
`{a, b}`?  (Cypher `MERGE (c1)-[r:RELATED_TO]-(c2)` matches the edge in
either direction.) -/
def pairMatch (e : String × String) (a b : String) : Bool :=
  (e.1 == a && e.2 == b) || (e.1 == b && e.2 == a)

/-- The undirected edge merge
`MERGE (c1)-[r:RELATED_TO]-(c2) ON CREATE SET r.weight = w
 ON MATCH SET r.weight = r.weight + w`. -/
def upsertRel : List ((String × String) × Nat) → String → String → Nat →
    List ((String × String) × Nat)
  | [], a, b, w => [((a, b), w)]
  | (e, v) :: rest, a, b, w =>
    if pairMatch e a b then (e, v + w) :: rest else (e, v) :: upsertRel rest a b w

/-- Retrieve the weight of the RELATED_TO edge between `a` and `b`
(direction-insensitive, like an undirected Cypher match). -/
def getRel (es : List ((String × String) × Nat)) (a b : String) : Option Nat :=
  (es.find? (fun r => pairMatch r.1 a b)).map (·.2)

/-- Number of stored edges whose endpoints equal the unordered pair `{a, b}`. -/
def countRel (es : List ((String × String) × Nat)) (a b : String) : Nat :=
  (es.filter (fun r => pairMatch r.1 a b)).length

/-- Inner loop of `createConceptRelationships`: relate concept `c` to every
later concept `d`, with weight `min c.frequency d.frequency`. -/
def relStep (es : List ((String × String) × Nat)) (c : String × Nat)
    (rest : List (String × Nat)) : List ((String × String) × Nat) :=
  rest.foldl (fun es d => upsertRel es c.1 d.1 (min c.2 d.2)) es

/-- `createConceptRelationships(concepts)`: for every i < j merge a
RELATED_TO edge between concepts i and j. -/
def createConceptRelationships :
    List ((String × String) × Nat) → List (String × Nat) →
    List ((String × String) × Nat)
  | es, [] => es
  | es, c :: rest => createConceptRelationships (relStep es c rest) rest

/-- The fixed "global" indicator words of `determineSearchMode`. -/
def globalIndicators : List String :=
  ["overall", "general", "compare", "analyze", "overview", "summary",
   "trend", "pattern"]

/-- The fixed "local" indicator words of `determineSearchMode`. -/
def localIndicators : List String :=
  ["specific", "detail", "who", "what", "when", "where", "how"]

/-- Indicators occurring (as substrings, per JS `includes`) in the
lower-cased question. -/
def indicatorScore (inds : List String) (question : String) : Nat :=
  (inds.filter (fun i => strContains (lowerStr question) i)).length

/-- `determineSearchMode(question)`: global exactly when the global indicator
count strictly exceeds the local one (`globalScore > localScore`). -/
def determineSearchMode (question : String) : String :=
  if indicatorScore localIndicators question < indicatorScore globalIndicators question
  then "global" else "local"

/-- A matched entity row of the local search (name, type, description and
up to five connected names). -/
structure EntityRec where
  name : String
  type : String
  description : String
  connected : List String

/-- A matched document row of the local search. -/
structure DocRec where
  name : String
  content : String
  dtype : String
  entities : List String

/-- The three repository reads `localSearch` can issue. -/
inductive RepoOp where
  | entitySearch
  | conceptSearch
  | docSearch
deriving DecidableEq, Repr

/-- The abstract Neo4j repository seen by `localSearch`: each operation maps
the supplied terms to its result rows. -/
structure KGStorage where
  entitySearch : List String → List EntityRec
  conceptSearch : List String → List (String × Nat)
  docSearch : List String → List DocRec

/-- The key terms of a question: tokens that are not stop words and are
longer than 2 characters, each stemmed. -/
def keyTermsOf (stop : List String) (stem : String → String)
    (tokens : List String) : List String :=
  (tokens.filter (fun t => !stop.contains t && decide (2 < t.length))).map stem

/-- One formatted entity bullet of the local-search response. -/
def entityLine (e : EntityRec) : String :=
  "   • " ++ e.name ++ " (" ++ e.type ++ ")" ++
    (if e.description ≠ "" then ": " ++ e.description else "") ++ "\n" ++
    (if e.connected ≠ [] then
      "     Connected to: " ++ String.intercalate ", " (e.connected.take 3) ++ "\n"
     else "")

/-- One formatted document entry of the local-search response. -/
def docLine (i : Nat) (d : DocRec) : String :=
  "   " ++ toString (i + 1) ++ ". " ++ d.name ++ " (" ++ d.dtype ++ ")\n" ++
    "      Preview: " ++ strTake d.content 200 ++ "...\n" ++
    "      Key entities: " ++ String.intercalate ", " (d.entities.take 3) ++ "\n\n"

/-- The response string `localSearch` assembles from its matches. -/
def buildResponse (question : String) (rel : List EntityRec)
    (docs : List DocRec) : String :=
  "Based on your question about \"" ++ question ++
    "\", here's what I found:\n\n" ++
    "🔍 **Relevant Entities:**\n" ++
    String.join ((rel.take 5).map entityLine) ++
    "\n📄 **Related Documents:**\n" ++
    String.join (docs.enum.map (fun p => docLine p.1 p.2))

/-- `localSearch(question)` over the abstract repository, also reporting the
repository reads it performed, in order.  The question's tokens are supplied
by the external tokenizer. -/
def localSearch (stop : List String) (stem : String → String) (st : KGStorage)
    (question : String) (tokens : List String) : String × List RepoOp :=
  let keyTerms := keyTermsOf stop stem tokens
  if keyTerms.isEmpty then
    ("Please provide a more specific question with meaningful terms.", [])
  else
    let rel := st.entitySearch keyTerms
    if rel.isEmpty then
      let cons := st.conceptSearch keyTerms
      if cons.isEmpty then
        ("No relevant concepts or entities found in the knowledge graph for your question.",
         [RepoOp.entitySearch, RepoOp.conceptSearch])
      else
        let rel' := rel ++ cons.map (fun c => EntityRec.mk c.1 "CONCEPT" "" [])
        let docs := st.docSearch (rel'.map (·.name))
        (buildResponse question rel' docs,
         [RepoOp.entitySearch, RepoOp.conceptSearch, RepoOp.docSearch])
    else
      let docs := st.docSearch (rel.map (·.name))
      (buildResponse question rel docs, [RepoOp.entitySearch, RepoOp.docSearch])

/-- The graph state mutated by ingestion: Document nodes, Concept nodes with
frequencies, CONTAINS edges and RELATED_TO edges. -/
structure Graph where
  docs : List String
  concepts : List (String × Nat)
  contains : List (String × String × Nat)
  related : List ((String × String) × Nat)

/-- The empty graph (the state after `MATCH (n) DETACH DELETE n`). -/
def Graph.empty : Graph := ⟨[], [], [], []⟩

/-- Graph mutations of one document ingestion: create the Document node,
merge every extracted concept, add one CONTAINS edge per concept, and merge
the pairwise RELATED_TO edges. -/
def ingestDoc (g : Graph) (docId : String) (cs : List (String × Nat)) : Graph :=
  { docs := g.docs ++ [docId]
    concepts := ingestConcepts g.concepts cs
    contains := g.contains ++ cs.map (fun c => (docId, c.1, c.2))
    related := createConceptRelationships g.related cs }

/-- Result of one `ingestFile` call: the new graph, whether the source was
accepted, and whether the graph-wide clear ran. -/
structure IngestOutcome where
  graph : Graph
  ok : Bool
  didClear : Bool

/-- `ingestFile(filePath, clear)`: reject files over `maxFileSize` before
touching the graph; otherwise optionally clear, then extract and ingest. -/
def ingestFile (tok : String → List String) (stem : String → String)
    (stop : List String) (maxFileSize : Nat) (g : Graph) (doClear : Bool)
    (docId : String) (size : Nat) (text : String) : IngestOutcome :=
  if maxFileSize < size then ⟨g, false, false⟩
  else
    let g1 := if doClear then Graph.empty else g
    let cs := extractConcepts tok stem stop text
    ⟨ingestDoc g1 docId cs, true, doClear⟩

/-- The remainder of an ingest batch after the first item: every later
source is ingested with the clear flag off (`clear && isFirstItem` is false
once `isFirstItem` has been reset). -/
def runRest (tok : String → List String) (stem : String → String)
    (stop : List String) (maxFileSize : Nat) (g : Graph)
    (items : List (String × Nat × String)) : Graph :=
  items.foldl
    (fun g it => (ingestFile tok stem stop maxFileSize g false it.1 it.2.1 it.2.2).graph)
    g

/-- One iteration of the `ingest` command's batch loop: the per-source
clear flag is `clear && isFirstItem`, and `isFirstItem` is reset after
every source; the third component counts how often the clear ran. -/
def batchStep (tok : String → List String) (stem : String → String)
    (stop : List String) (maxFileSize : Nat) (clear : Bool)
    (s : Graph × Bool × Nat) (it : String × Nat × String) :
    Graph × Bool × Nat :=
  let out := ingestFile tok stem stop maxFileSize s.1 (clear && s.2.1)
    it.1 it.2.1 it.2.2
  (out.graph, false, s.2.2 + (if out.didClear then 1 else 0))

/-- The `ingest` command's batch loop: sources processed in order starting
with `isFirstItem = true`; returns the final graph and how many times the
graph-wide clear ran. -/
def runBatch (tok : String → List String) (stem : String → String)
    (stop : List String) (maxFileSize : Nat) (g : Graph) (clear : Bool)
    (items : List (String × Nat × String)) : Graph × Nat :=
  let r := items.foldl (batchStep tok stem stop maxFileSize clear) (g, true, 0)
  (r.1, r.2.2)

end KG

/-- Splitter with the semantics of JS `String.prototype.split` on a
character-class-plus regex (`/\s+/`, `/[.!?]+/`): maximal separator runs
delimit segments, and leading/trailing separators yield empty segments.
`cur` is the reversed current segment, `inSep` whether the previous
character was a separator. -/
def splitRunsCore (isSep : Char → Bool) : List Char → Bool → List Char → List (List Char)
  | cur, _, [] => [cur.reverse]
  | cur, inSep, c :: rest =>
    if isSep c then
      if inSep then splitRunsCore isSep cur inSep rest
      else cur.reverse :: splitRunsCore isSep [] true rest
    else splitRunsCore isSep (c :: cur) false rest

/-- `s.split(re)` for a separator character class `isSep` repeated. -/
def splitOn (isSep : Char → Bool) (s : String) : List String :=
  (splitRunsCore isSep [] false s.data).map (fun l => String.mk l)

/-- The sentence-terminator class `[.!?]`. -/
def isSentEnd (c : Char) : Bool :=
  c == '.' || c == '!' || c == '?'

namespace P2

/-- One character of `text.replace(/[^\w\s]/g, ' ')`: word characters and
whitespace survive, everything else becomes a space. -/
def sanitizeChar (c : Char) : Char :=
  if c.isAlphanum || c == '_' || c.isWhitespace then c else ' '

/-- `text.replace(/[^\w\s]/g, ' ')`. -/
def sanitize (s : String) : String :=
  String.mk (s.data.map sanitizeChar)

/-- The in-source stop-word array of `extractConcepts` (duplicates kept;
membership is what matters). -/
def stopWords : List String :=
  ["this", "that", "with", "have", "will", "from", "they", "been", "said",
   "each", "which", "their", "time", "about", "would", "there", "could",
   "other", "more", "very", "what", "know", "just", "into", "over", "think",
   "also", "your", "work", "life", "only", "can", "still", "should", "after",
   "being", "now", "made", "before", "here", "through", "when", "where",
   "how", "all", "any", "may", "say", "get", "has", "had", "his", "her",
   "him", "my", "me", "we", "our", "out", "day", "go", "he", "she", "it",
   "of", "to", "and", "a", "in", "is", "it", "you", "that", "he", "was",
   "for", "on", "are", "as", "with", "his", "they", "i", "at", "be", "or",
   "an", "were", "by", "but", "not", "do", "can", "if", "no", "had", "my",
   "has", "so", "the", "then", "than", "some", "like", "who", "these",
   "those", "such", "many", "most", "much", "while", "since", "both",
   "either", "neither", "every", "another", "same", "different", "new",
   "old", "first", "last", "next", "previous", "good", "bad", "best", "worst",
   "make", "way", "come", "its", "now", "find", "long", "down", "day", "did",
   "get", "come", "made", "may", "part"]

/-- Words of the text: lower-case, punctuation to spaces, split on
whitespace, keep words longer than 3 characters. -/
def p2Words (text : String) : List String :=
  (splitOn Char.isWhitespace (sanitize (lowerStr text))).filter
    (fun w => decide (3 < w.length))

/-- Adjacent word pairs of a word list (the sliding 2-token window). -/
def pairsOf : List String → List (String × String)
  | a :: b :: rest => (a, b) :: pairsOf (b :: rest)
  | _ => []

/-- Does the string start with a digit (`/^\d/`)? -/
def startsDigit (s : String) : Bool :=
  match s.data with
  | [] => false
  | c :: _ => c.isDigit

/-- The 2-word phrases of the text: per sentence, adjacent word pairs
longer than 8 characters, neither word a stop word, not starting with a
digit. -/
def p2Phrases (text : String) : List String :=
  (splitOn isSentEnd text).flatMap (fun s =>
    let ws := splitOn Char.isWhitespace (sanitize (lowerStr s))
    (pairsOf ws).filterMap (fun ab =>
      let ph := ab.1 ++ " " ++ ab.2
      if decide (8 < ph.length) && !stopWords.contains ab.1 &&
          !stopWords.contains ab.2 && !startsDigit ph
      then some ph else none))

/-- `extractConcepts(text)` of the `KnowledgeGraphCLI` variant: the top 15
single words with frequency at least 2, followed by the top 10 phrases with
frequency at least 2 (each group stably sorted by descending frequency). -/
def p2ExtractConcepts (text : String) : List String :=
  let concepts0 := (p2Words text).filter (fun w => !stopWords.contains w)
  let singles :=
    ((sortDesc ((countStems concepts0).filter (fun p => decide (2 ≤ p.2)))).take 15).map (·.1)
  let phraseCs :=
    ((sortDesc ((countStems (p2Phrases text)).filter (fun p => decide (2 ≤ p.2)))).take 10).map (·.1)
  singles ++ phraseCs

/-- The graph state of this variant. -/
structure P2Graph where
  docs : List (String × String × String)
  concepts : List (String × Nat)
  contains : List (String × String × Nat)
  related : List ((String × String) × Nat)
deriving DecidableEq, Repr

/-- Total node count (Document plus Concept nodes). -/
def P2Graph.nodeCount (g : P2Graph) : Nat :=
  g.docs.length + g.concepts.length

/-- Total edge count (CONTAINS plus RELATED_TO edges). -/
def P2Graph.edgeCount (g : P2Graph) : Nat :=
  g.contains.length + g.related.length

/-- The per-concept merge of `processDocument`:
`MERGE (c:Concept {name}) ON CREATE SET c.frequency = 1
 ON MATCH SET c.frequency = c.frequency + 1`. -/
def p2UpsertConcept : List (String × Nat) → String → List (String × Nat)
  | [], n => [(n, 1)]
  | (k, v) :: rest, n =>
    if k == n then (k, v + 1) :: rest else (k, v) :: p2UpsertConcept rest n

/-- Inner co-occurrence loop: relate concept `c` to every later concept,
each merge adding weight 1 (the Cypher merge is the same undirected
`MERGE (c1)-[r:RELATED_TO]-(c2)` as in the other variant). -/
def p2RelStep (es : List ((String × String) × Nat)) (c : String)
    (rest : List String) : List ((String × String) × Nat) :=
  rest.foldl (fun es d => KG.upsertRel es c d 1) es

/-- The co-occurrence double loop of `processDocument`. -/
def p2CreateRels : List ((String × String) × Nat) → List String →
    List ((String × String) × Nat)
  | es, [] => es
  | es, c :: rest => p2CreateRels (p2RelStep es c rest) rest

/-- The CLI state: cumulative ingested size, the configured ceiling and the
graph. -/
structure CLIState where
  totalSize : Nat
  maxSize : Nat
  graph : P2Graph
deriving DecidableEq, Repr

/-- `checkSizeLimit(newSize)`: false (rejected) when the cumulative size
would exceed the ceiling. -/
def checkSizeLimit (st : CLIState) (newSize : Nat) : Bool :=
  !(decide (st.maxSize < st.totalSize + newSize))

/-- `processDocument(name, content, type, source)`: extract concepts, create
the Document node, merge concept nodes with weight-1 CONTAINS edges, merge
pairwise RELATED_TO edges and add the content length to the running total. -/
def processDocument (st : CLIState) (docId name content : String) : CLIState :=
  let cs := p2ExtractConcepts content
  { st with
    totalSize := st.totalSize + content.length
    graph := { docs := st.graph.docs ++ [(docId, name, content)]
               concepts := cs.foldl p2UpsertConcept st.graph.concepts
               contains := st.graph.contains ++ cs.map (fun c => (docId, c, 1))
               related := p2CreateRels st.graph.related cs } }

/-- The ingestion summary `processDocument` returns. -/
structure P2Summary where
  name : String
  concepts : Nat
  size : Nat
  dtype : String
deriving DecidableEq, Repr

/-- `ingestFile(filePath)`: the size check (against the file's stat size)
runs before the document is processed; a rejected file returns `null` and
leaves the state untouched. -/
def p2IngestFile (st : CLIState) (docId name content : String)
    (statSize : Nat) : Option P2Summary × CLIState :=
  if checkSizeLimit st statSize then
    (some ⟨name, (p2ExtractConcepts content).length, content.length, "file"⟩,
     processDocument st docId name content)
  else (none, st)

/-- `ingestUrl(url)`: the size check runs on the stripped content length
before the document is processed. -/
def p2IngestUrl (st : CLIState) (docId url content : String) :
    Option P2Summary × CLIState :=
  if checkSizeLimit st content.length then
    (some ⟨url, (p2ExtractConcepts content).length, content.length, "url"⟩,
     processDocument st docId url content)
  else (none, st)

/-- A document row returned by the document query (name, content, type,
count of matched concepts and their names). -/
structure P2DocRow where
  name : String
  content : String
  dtype : String
  conceptCount : Nat
  matched : List String
deriving DecidableEq, Repr

/-- The abstract Neo4j store seen by `queryGraph`; each read may fail
(`Except.error` models a thrown storage error). -/
structure P2Storage where
  findConcepts : List String → Except String (List (String × Nat))
  findDocs : List String → Except String (List P2DocRow)

/-- The structured result `queryGraph` returns. -/
structure P2QueryResult where
  answer : String
  concepts : List (String × Nat)
  documents : List (String × String × List String)
deriving DecidableEq, Repr

/-- Query words: lower-case, split on whitespace, keep words longer than
2 characters (no punctuation stripping in this variant). -/
def queryWords (q : String) : List String :=
  (splitOn Char.isWhitespace (lowerStr q)).filter (fun w => decide (2 < w.length))

/-- Candidate sentences of a document: split on `[.!?]+`, keep those whose
trimmed length strictly exceeds 20. -/
def candidateSents (content : String) : List String :=
  (splitOn isSentEnd content).filter (fun s => decide (20 < (strTrim s).length))

/-- Twice the JS sentence score.  The JS score is +2 per query word
contained, +1 per relevant concept name contained, ×1.5 when the raw score
exceeds 2; it therefore lives in half-integers, and the embedding stores
its double (`2s`, so the bonus case is `3 * base`), which keeps it in ℕ.
Doubling is strictly monotone, so every comparison the code performs on
scores is preserved exactly. -/
def sentenceScore2 (qw cn : List String) (s : String) : Nat :=
  let sl := lowerStr s
  let base : Nat := 2 * (qw.filter (fun w => strContains sl w)).length
      + (cn.filter (fun c => strContains sl c)).length
  if 2 < base then 3 * base else 2 * base

/-- The best-sentence update: adopt the sentence when its score strictly
beats the current best and its trimmed length strictly exceeds 30. -/
def betterSent (qw cn : List String) (acc : String × Nat) (s : String) :
    String × Nat :=
  let sc := sentenceScore2 qw cn s
  if acc.2 < sc ∧ 30 < (strTrim s).length then (strTrim s, sc) else acc

/-- The excerpt scan over all candidate documents: best answer and its
(doubled) score, starting from `('', 0)`. -/
def bestExcerpt (qw cn : List String) (contents : List String) : String × Nat :=
  contents.foldl (fun acc c => (candidateSents c).foldl (betterSent qw cn) acc)
    ("", 0)

/-- Modelled from the spec: candidate sentences of at least 20 characters
("split into sentences (≥ 20 characters)"); the code keeps strictly more
than 20. -/
def candidateSentsSpec (content : String) : List String :=
  (splitOn isSentEnd content).filter (fun s => decide (20 ≤ (strTrim s).length))

/-- Modelled from the spec: keep the best sentence of at least 30
characters ("the single highest-scoring sentence (≥ 30 characters)"); the
code requires strictly more than 30. -/
def betterSentSpec (qw cn : List String) (acc : String × Nat) (s : String) :
    String × Nat :=
  let sc := sentenceScore2 qw cn s
  if acc.2 < sc ∧ 30 ≤ (strTrim s).length then (strTrim s, sc) else acc

/-- Modelled from the spec: the excerpt scan with inclusive length
thresholds, for comparison with the code's `bestExcerpt`. -/
def bestExcerptSpec (qw cn : List String) (contents : List String) :
    String × Nat :=
  contents.foldl
    (fun acc c => (candidateSentsSpec c).foldl (betterSentSpec qw cn) acc)
    ("", 0)

/-- The success result when no concept matches. -/
def noConceptsResult : P2QueryResult :=
  ⟨"I couldn't find any relevant concepts in the knowledge graph for your question.",
   [], []⟩

/-- The success result when concepts match but no document contains them. -/
def noDocsResult (cs : List (String × Nat)) : P2QueryResult :=
  ⟨"No documents found containing the relevant concepts.", cs, []⟩

/-- The catch-all result of `queryGraph`'s error handler. -/
def errorResult : P2QueryResult :=
  ⟨"Error occurred while searching the knowledge graph.", [], []⟩

/-- The body of `queryGraph` up to (but excluding) its `catch`: storage
failures propagate as `Except.error`. -/
def p2QueryPipeline (st : P2Storage) (question : String) :
    Except String P2QueryResult := do
  let qw := queryWords question
  let rc ← st.findConcepts qw
  if rc.isEmpty then
    return noConceptsResult
  else
    let docs ← st.findDocs (rc.map (·.1))
    if docs.isEmpty then
      return noDocsResult rc
    else
      let best := bestExcerpt qw (rc.map (·.1)) (docs.map (·.content))
      let conceptsList := String.intercalate ", " ((rc.take 5).map (·.1))
      let ans :=
        if best.1 ≠ "" then "Based on your documents: " ++ best.1
        else "Found relevant concepts (" ++ conceptsList ++
          ") but couldn't extract a specific answer. Try rephrasing your question."
      return ⟨ans, rc, docs.map (fun d => (d.name, d.dtype, d.matched))⟩

/-- `queryGraph(question)`: the pipeline wrapped in the `try`/`catch` that
converts any storage failure into the user-facing error answer. -/
def p2QueryGraph (st : P2Storage) (question : String) : P2QueryResult :=
  match p2QueryPipeline st question with
  | .ok r => r
  | .error _ => errorResult

end P2

namespace KG

/-- An Entity node as community detection sees it. -/
structure ENode where
  name : String
  etype : String
  community : Option String
deriving DecidableEq, Repr

/-- Are `x` and `y` joined by some RELATED_TO edge (either direction)? -/
def adjacent (edges : List (String × String)) (x y : String) : Bool :=
  edges.any (fun e => (e.1 == x && e.2 == y) || (e.1 == y && e.2 == x))

/-- Modelled from the spec: one closure step of connected components over
the RELATED_TO adjacency — keep the nodes already reached or adjacent to a
reached node. -/
def expand (nodes : List String) (edges : List (String × String))
    (s : List String) : List String :=
  nodes.filter (fun n => s.contains n || s.any (fun m => adjacent edges n m))

/-- Modelled from the spec: the connected component of `x`, reached after
`|nodes|` closure steps (missing from src/: the component computation runs
inside the external `gds.wcc` library procedure). -/
def reachSet (nodes : List String) (edges : List (String × String))
    (x : String) : List String :=
  Nat.iterate (expand nodes edges) nodes.length [x]

/-- Lexicographic order on character lists (computable and
kernel-reducible, unlike core `String.ltb`). -/
def listLt : List Char → List Char → Bool
  | [], [] => false
  | [], _ :: _ => true
  | _ :: _, [] => false
  | a :: as, b :: bs =>
    if a.toNat < b.toNat then true
    else if b.toNat < a.toNat then false
    else listLt as bs

/-- Lexicographic order on strings. -/
def strLt (a b : String) : Bool :=
  listLt a.data b.data

/-- Modelled from the spec: a deterministic component label — the least
member name of `x`'s component. -/
def componentLabel (nodes : List String) (edges : List (String × String))
    (x : String) : String :=
  (reachSet nodes edges x).foldl (fun a b => if strLt b a then b else a) x

/-- Modelled from the spec: the primary community detection — write a
component label on every Entity node (the `writeProperty: 'community'` of
`gds.wcc.write`). -/
def detectWCC (ns : List ENode) (edges : List (String × String)) : List ENode :=
  ns.map (fun n =>
    { n with community := some (componentLabel (ns.map (·.name)) edges n.name) })

/-- The fallback `CASE` bucketing by entity type. -/
def bucketOf (t : String) : String :=
  if t == "PERSON" then "people"
  else if t == "ORGANIZATION" then "organizations"
  else if t == "TECHNOLOGY" then "technologies"
  else if t == "LOCATION" then "locations"
  else "concepts"

/-- The fallback community detection: label every Entity by its type
bucket. -/
def detectFallback (ns : List ENode) : List ENode :=
  ns.map (fun n => { n with community := some (bucketOf n.etype) })

/-- Size of the community carrying `label`. -/
def communitySize (ns : List ENode) (label : String) : Nat :=
  (ns.filter (fun n => n.community == some label)).length

end KG

end KGV

/-! Theorems. -/

namespace KGV

theorem keys_bumpCount (l : List (String × Nat)) (w : String) :
    keys (bumpCount l w) = if w ∈ keys l then keys l else keys l ++ [w] := by
  induction l with
  | nil => simp [bumpCount, keys]
  | cons p rest ih =>
    obtain ⟨k, v⟩ := p
    by_cases hk : k = w
    · subst hk
      simp [bumpCount, keys]
    · have hne : (k == w) = false := beq_false_of_ne hk
      simp only [bumpCount, hne, Bool.false_eq_true, if_false, keys, List.map_cons]
      have ih' := ih
      simp only [keys] at ih'
      by_cases hw : w ∈ List.map Prod.fst rest
      · simp [keys, hw, ih', Ne.symm hk]
      · simp [keys, hw, ih', Ne.symm hk]

theorem keys_countStems_aux (ws : List String) (acc : List (String × Nat))
    (h : (keys acc).Nodup) : (keys (ws.foldl bumpCount acc)).Nodup := by
  induction ws generalizing acc with
  | nil => simpa using h
  | cons w rest ih =>
    simp only [List.foldl_cons]
    apply ih
    rw [keys_bumpCount]
    by_cases hw : w ∈ keys acc
    · simpa [hw] using h
    · simp only [hw, if_false]
      exact List.Nodup.append h (List.nodup_singleton w) (by simpa using hw)

/-- The counted entries carry pairwise distinct names. -/
theorem keys_countStems_nodup (ws : List String) : (keys (countStems ws)).Nodup :=
  keys_countStems_aux ws [] (by simp [keys])

theorem pos_bumpCount (l : List (String × Nat)) (w : String)
    (h : ∀ p ∈ l, 1 ≤ p.2) : ∀ p ∈ bumpCount l w, 1 ≤ p.2 := by
  induction l with
  | nil => simp [bumpCount]
  | cons q rest ih =>
    obtain ⟨k, v⟩ := q
    intro p hp
    by_cases hk : k = w
    · subst hk
      simp only [bumpCount, beq_self_eq_true, if_true] at hp
      rcases List.mem_cons.mp hp with rfl | hm
      · omega
      · exact h p (List.mem_cons_of_mem _ hm)
    · simp only [bumpCount, beq_false_of_ne hk, Bool.false_eq_true, if_false] at hp
      rcases List.mem_cons.mp hp with rfl | hm
      · exact h (k, v) (List.mem_cons_self _ _)
      · exact ih (fun q hq => h q (List.mem_cons_of_mem _ hq)) p hm

theorem pos_countStems_aux (ws : List String) (acc : List (String × Nat))
    (h : ∀ p ∈ acc, 1 ≤ p.2) : ∀ p ∈ ws.foldl bumpCount acc, 1 ≤ p.2 := by
  induction ws generalizing acc with
  | nil => simpa using h
  | cons w rest ih =>
    simp only [List.foldl_cons]
    exact ih _ (pos_bumpCount acc w h)

/-- Every counted frequency is at least 1. -/
theorem pos_countStems (ws : List String) : ∀ p ∈ countStems ws, 1 ≤ p.2 :=
  pos_countStems_aux ws [] (by simp)

theorem insertDesc_perm (p : String × Nat) (l : List (String × Nat)) :
    List.Perm (insertDesc p l) (p :: l) := by
  induction l with
  | nil => simp [insertDesc]
  | cons q rest ih =>
    by_cases h : p.2 < q.2
    · simp only [insertDesc, h, if_true]
      exact List.Perm.trans (ih.cons q) (List.Perm.swap _ _ _)
    · simp [insertDesc, h]

/-- The stable sort permutes its input. -/
theorem sortDesc_perm (l : List (String × Nat)) : List.Perm (sortDesc l) l := by
  induction l with
  | nil => simp [sortDesc]
  | cons p rest ih =>
    exact List.Perm.trans (insertDesc_perm p (sortDesc rest)) (ih.cons p)

theorem insertDesc_sorted (p : String × Nat) (l : List (String × Nat))
    (h : l.Pairwise (fun a b => b.2 ≤ a.2)) :
    (insertDesc p l).Pairwise (fun a b => b.2 ≤ a.2) := by
  induction l with
  | nil => simp [insertDesc]
  | cons q rest ih =>
    rcases List.pairwise_cons.mp h with ⟨hq, hrest⟩
    by_cases hlt : p.2 < q.2
    · simp only [insertDesc, hlt, if_true]
      refine List.pairwise_cons.mpr ⟨?_, ih hrest⟩
      intro a ha
      have hmem := (insertDesc_perm p rest).mem_iff.mp ha
      rcases List.mem_cons.mp hmem with rfl | hm
      · omega
      · exact hq a hm
    · simp only [insertDesc, hlt, if_false]
      refine List.pairwise_cons.mpr ⟨?_, h⟩
      intro a ha
      rcases List.mem_cons.mp ha with rfl | hm
      · omega
      · have := hq a hm; omega

/-- The stable sort is sorted by descending frequency. -/
theorem sortDesc_sorted (l : List (String × Nat)) :
    (sortDesc l).Pairwise (fun a b => b.2 ≤ a.2) := by
  induction l with
  | nil => simp [sortDesc]
  | cons p rest ih => exact insertDesc_sorted p _ ih

theorem filter_insertDesc (p : String × Nat) (l : List (String × Nat)) (k : Nat) :
    (insertDesc p l).filter (fun q => q.2 == k) =
      if p.2 = k then p :: l.filter (fun q => q.2 == k)
      else l.filter (fun q => q.2 == k) := by
  induction l with
  | nil => by_cases h : p.2 = k <;> simp [insertDesc, h]
  | cons q rest ih =>
    by_cases hlt : p.2 < q.2
    · simp only [insertDesc, hlt, if_true]
      by_cases hq : q.2 = k
      · have hp : ¬ p.2 = k := by omega
        simp [List.filter_cons, hq, hp, ih]
      · simp [List.filter_cons, hq, ih]
    · simp only [insertDesc, hlt, if_false]
      by_cases hp : p.2 = k <;> simp [List.filter_cons, hp]

/-- Stability of the sort: entries sharing one frequency keep their input
order (this pins the secondary tie-break to insertion order). -/
theorem sortDesc_stable (l : List (String × Nat)) (k : Nat) :
    (sortDesc l).filter (fun q => q.2 == k) = l.filter (fun q => q.2 == k) := by
  induction l with
  | nil => simp [sortDesc]
  | cons p rest ih =>
    show (insertDesc p (sortDesc rest)).filter (fun q => q.2 == k) = _
    rw [filter_insertDesc]
    by_cases hp : p.2 = k <;> simp [hp, List.filter_cons, ih]

namespace KG

theorem lookupFreq_upsertConcept (store : List (String × Nat)) (n : String)
    (f : Nat) (m : String) :
    lookupFreq (upsertConcept store n f) m =
      if m = n then some ((lookupFreq store n).getD 0 + f)
      else lookupFreq store m := by
  induction store with
  | nil =>
    by_cases h : m = n
    · subst h; simp [upsertConcept, lookupFreq]
    · simp [upsertConcept, lookupFreq, List.find?, h, beq_false_of_ne (Ne.symm h)]
  | cons q rest ih =>
    obtain ⟨k, v⟩ := q
    by_cases hk : k = n
    · subst hk
      simp only [upsertConcept, beq_self_eq_true, if_true]
      by_cases hm : m = k
      · subst hm; simp [lookupFreq, List.find?]
      · simp [lookupFreq, List.find?, beq_false_of_ne (Ne.symm hm), hm]
    · simp only [upsertConcept, beq_false_of_ne hk, Bool.false_eq_true, if_false]
      by_cases hm : m = k
      · subst hm
        have : ¬ m = n := hk
        simp [lookupFreq, List.find?, this]
      · simp only [lookupFreq, List.find?, beq_false_of_ne (Ne.symm hm)]
        have ih' := ih
        simp only [lookupFreq] at ih'
        by_cases hmn : m = n
        · subst hmn
          simpa [lookupFreq, List.find?, beq_false_of_ne (Ne.symm hm)] using ih'
        · simpa [lookupFreq, hmn, List.find?, beq_false_of_ne (Ne.symm hm)] using ih'

theorem lookupFreq_ingestConcepts (cs : List (String × Nat))
    (hnd : (keys cs).Nodup) (store : List (String × Nat)) (n : String) :
    lookupFreq (ingestConcepts store cs) n =
      match lookupFreq cs n with
      | some f => some ((lookupFreq store n).getD 0 + f)
      | none => lookupFreq store n := by
  induction cs generalizing store with
  | nil => simp [ingestConcepts, lookupFreq]
  | cons c rest ih =>
    obtain ⟨m, g⟩ := c
    have hnd' : (keys rest).Nodup := (List.nodup_cons.mp hnd).2
    have hnotin : m ∉ keys rest := (List.nodup_cons.mp hnd).1
    have step : ingestConcepts store ((m, g) :: rest) =
        ingestConcepts (upsertConcept store m g) rest := rfl
    rw [step, ih hnd']
    by_cases hn : n = m
    · subst hn
      have hfind : List.find? (fun p => p.1 == n) rest = none :=
        List.find?_eq_none.mpr (fun p hp hb => hnotin (by
          have h1 : p.1 = n := by simpa using hb
          simpa [keys, ← h1] using List.mem_map_of_mem Prod.fst hp))
      have hrest : lookupFreq rest n = none := by simp [lookupFreq, hfind]
      have hhead : lookupFreq ((n, g) :: rest) n = some g := by
        simp [lookupFreq, List.find?]
      rw [hrest, hhead]
      simp [lookupFreq_upsertConcept]
    · have hcons : lookupFreq ((m, g) :: rest) n = lookupFreq rest n := by
        simp [lookupFreq, List.find?, beq_false_of_ne (Ne.symm hn)]
      rw [hcons]
      have hup : lookupFreq (upsertConcept store m g) n = lookupFreq store n := by
        rw [lookupFreq_upsertConcept]; simp [hn]
      cases hrf : lookupFreq rest n <;> simp [hrf, hup]

/-- Membership of a name is never lost by a concept merge. -/
theorem lookupFreq_upsertConcept_isSome (store : List (String × Nat))
    (n : String) (f : Nat) (m : String)
    (h : (lookupFreq store m).isSome) :
    (lookupFreq (upsertConcept store n f) m).isSome := by
  rw [lookupFreq_upsertConcept]
  by_cases hm : m = n <;> simp [hm, h]

theorem lookupFreq_ingestConcepts_isSome (cs : List (String × Nat))
    (store : List (String × Nat)) (m : String)
    (h : (lookupFreq store m).isSome) :
    (lookupFreq (ingestConcepts store cs) m).isSome := by
  induction cs generalizing store with
  | nil => simpa [ingestConcepts] using h
  | cons c rest ih =>
    have step : ingestConcepts store (c :: rest) =
        ingestConcepts (upsertConcept store c.1 c.2) rest := rfl
    rw [step]
    exact ih _ (lookupFreq_upsertConcept_isSome store c.1 c.2 m h)

theorem pairMatch_comm (e : String × String) (a b : String) :
    pairMatch e a b = pairMatch e b a := by
  simp [pairMatch, Bool.or_comm]

/-- Edge retrieval is insensitive to the order of the two endpoints. -/
theorem getRel_comm (es : List ((String × String) × Nat)) (a b : String) :
    getRel es a b = getRel es b a := by
  have hpred : (fun r : (String × String) × Nat => pairMatch r.1 a b) =
      (fun r => pairMatch r.1 b a) := funext fun r => pairMatch_comm r.1 a b
  simp [getRel, hpred]

theorem getRel_upsertRel_self (es : List ((String × String) × Nat))
    (a b : String) (w : Nat) : (getRel (upsertRel es a b w) a b).isSome := by
  induction es with
  | nil => simp [upsertRel, getRel, List.find?, pairMatch]
  | cons r rest ih =>
    obtain ⟨e, v⟩ := r
    by_cases hm : pairMatch e a b = true
    · simp [upsertRel, hm, getRel, List.find?]
    · simp only [upsertRel, hm, Bool.false_eq_true, if_false]
      simpa [getRel, List.find?, hm] using ih

theorem getRel_upsertRel_mono (es : List ((String × String) × Nat))
    (a b c d : String) (w v : Nat) (h : getRel es a b = some v) :
    ∃ v', getRel (upsertRel es c d w) a b = some v' ∧ v ≤ v' := by
  induction es with
  | nil => simp [getRel] at h
  | cons r rest ih =>
    obtain ⟨e, u⟩ := r
    by_cases hcd : pairMatch e c d = true
    · simp only [upsertRel, hcd, if_true]
      by_cases hab : pairMatch e a b = true
      · have hv : u = v := by simpa [getRel, List.find?, hab] using h
        subst hv
        exact ⟨u + w, by simp [getRel, List.find?, hab], Nat.le_add_right u w⟩
      · have h' : getRel rest a b = some v := by
          simpa [getRel, List.find?, hab] using h
        exact ⟨v, by simpa [getRel, List.find?, hab] using h', Nat.le_refl v⟩
    · simp only [upsertRel, hcd, Bool.false_eq_true, if_false]
      by_cases hab : pairMatch e a b = true
      · have hv : u = v := by simpa [getRel, List.find?, hab] using h
        subst hv
        exact ⟨u, by simp [getRel, List.find?, hab], Nat.le_refl u⟩
      · have h' : getRel rest a b = some v := by
          simpa [getRel, List.find?, hab] using h
        obtain ⟨v', hv', hle⟩ := ih h'
        exact ⟨v', by simpa [getRel, List.find?, hab] using hv', hle⟩

theorem getRel_upsertRel_isSome (es : List ((String × String) × Nat))
    (a b c d : String) (w : Nat) (h : (getRel es a b).isSome) :
    (getRel (upsertRel es c d w) a b).isSome := by
  obtain ⟨v, hv⟩ := Option.isSome_iff_exists.mp h
  obtain ⟨v', hv', _⟩ := getRel_upsertRel_mono es a b c d w v hv
  simp [hv']

/-- If two unordered pairs coincide, they match exactly the same edges. -/
theorem pairMatch_congr (c d a b : String) (h : pairMatch (c, d) a b = true)
    (e : String × String) : pairMatch e a b = pairMatch e c d := by
  simp only [pairMatch, Bool.or_eq_true, Bool.and_eq_true, beq_iff_eq] at h
  rcases h with ⟨hc, hd⟩ | ⟨hc, hd⟩
  · rw [hc, hd]
  · rw [hc, hd]; exact pairMatch_comm e a b

theorem upsertRel_no_match (es : List ((String × String) × Nat))
    (c d : String) (w : Nat) (h : ∀ r ∈ es, pairMatch r.1 c d = false) :
    upsertRel es c d w = es ++ [((c, d), w)] := by
  induction es with
  | nil => simp [upsertRel]
  | cons r rest ih =>
    obtain ⟨e, v⟩ := r
    have he : pairMatch e c d = false := h (e, v) (List.mem_cons_self _ _)
    simp only [upsertRel, he, Bool.false_eq_true, if_false, List.cons_append,
      List.cons.injEq, true_and]
    exact ih (fun r hr => h r (List.mem_cons_of_mem _ hr))

theorem countRel_upsertRel_matched (es : List ((String × String) × Nat))
    (a b c d : String) (w : Nat)
    (h : ∃ r ∈ es, pairMatch r.1 c d = true) :
    countRel (upsertRel es c d w) a b = countRel es a b := by
  induction es with
  | nil => simp at h
  | cons r rest ih =>
    obtain ⟨e, v⟩ := r
    by_cases hcd : pairMatch e c d = true
    · by_cases hab : pairMatch e a b = true <;>
        simp [upsertRel, hcd, countRel, List.filter_cons, hab]
    · simp only [upsertRel, hcd, Bool.false_eq_true, if_false]
      have h' : ∃ r ∈ rest, pairMatch r.1 c d = true := by
        rcases h with ⟨r, hr, hm⟩
        rcases List.mem_cons.mp hr with rfl | hmem
        · exact absurd hm hcd
        · exact ⟨r, hmem, hm⟩
      simp only [countRel, List.filter_cons] at ih ⊢
      by_cases hab : pairMatch e a b = true <;> simp [hab, ih h']

/-- A RELATED_TO merge keeps the store's edges unique per unordered pair. -/
theorem countRel_upsertRel_le_one (es : List ((String × String) × Nat))
    (a b c d : String) (w : Nat) (h : countRel es a b ≤ 1) :
    countRel (upsertRel es c d w) a b ≤ 1 := by
  by_cases hm : ∃ r ∈ es, pairMatch r.1 c d = true
  · rw [countRel_upsertRel_matched es a b c d w hm]; exact h
  · push_neg at hm
    have hall : ∀ r ∈ es, pairMatch r.1 c d = false := by
      intro r hr
      exact Bool.eq_false_iff.mpr (fun hc => (hm r hr) hc)
    rw [upsertRel_no_match es c d w hall]
    by_cases hcd : pairMatch (c, d) a b = true
    · have hzero : List.filter (fun r => pairMatch r.1 a b) es = [] := by
        rw [List.filter_eq_nil_iff]
        intro r hr
        rw [pairMatch_congr c d a b hcd r.1]
        simp [hall r hr]
      simp [countRel, List.filter_append, List.filter_cons, hcd, hzero]
    · simp only [countRel, List.filter_append, List.filter_cons, hcd]
      simpa [countRel] using h

theorem getRel_relStep_mono (rest : List (String × Nat)) (c : String × Nat)
    (es : List ((String × String) × Nat)) (a b : String) (v : Nat)
    (h : getRel es a b = some v) :
    ∃ v', getRel (relStep es c rest) a b = some v' ∧ v ≤ v' := by
  induction rest generalizing es v with
  | nil => exact ⟨v, h, Nat.le_refl v⟩
  | cons d tail ih =>
    have step : relStep es c (d :: tail) =
        relStep (upsertRel es c.1 d.1 (min c.2 d.2)) c tail := rfl
    rw [step]
    obtain ⟨v1, hv1, hle1⟩ := getRel_upsertRel_mono es a b c.1 d.1 (min c.2 d.2) v h
    obtain ⟨v2, hv2, hle2⟩ := ih _ v1 hv1
    exact ⟨v2, hv2, Nat.le_trans hle1 hle2⟩

theorem getRel_relStep_isSome (rest : List (String × Nat)) (c : String × Nat)
    (es : List ((String × String) × Nat)) (a b : String)
    (h : (getRel es a b).isSome) : (getRel (relStep es c rest) a b).isSome := by
  obtain ⟨v, hv⟩ := Option.isSome_iff_exists.mp h
  obtain ⟨v', hv', _⟩ := getRel_relStep_mono rest c es a b v hv
  simp [hv']

theorem getRel_createCCR_mono (cs : List (String × Nat))
    (es : List ((String × String) × Nat)) (a b : String) (v : Nat)
    (h : getRel es a b = some v) :
    ∃ v', getRel (createConceptRelationships es cs) a b = some v' ∧ v ≤ v' := by
  induction cs generalizing es v with
  | nil => exact ⟨v, h, Nat.le_refl v⟩
  | cons c rest ih =>
    have step : createConceptRelationships es (c :: rest) =
        createConceptRelationships (relStep es c rest) rest := rfl
    rw [step]
    obtain ⟨v1, hv1, hle1⟩ := getRel_relStep_mono rest c es a b v h
    obtain ⟨v2, hv2, hle2⟩ := ih _ v1 hv1
    exact ⟨v2, hv2, Nat.le_trans hle1 hle2⟩

theorem getRel_createCCR_isSome (cs : List (String × Nat))
    (es : List ((String × String) × Nat)) (a b : String)
    (h : (getRel es a b).isSome) :
    (getRel (createConceptRelationships es cs) a b).isSome := by
  obtain ⟨v, hv⟩ := Option.isSome_iff_exists.mp h
  obtain ⟨v', hv', _⟩ := getRel_createCCR_mono cs es a b v hv
  simp [hv']

theorem keys_cons (p : String × Nat) (l : List (String × Nat)) :
    keys (p :: l) = p.1 :: keys l := rfl

theorem getRel_relStep_self (rest : List (String × Nat)) (c : String × Nat)
    (es : List ((String × String) × Nat)) (b : String)
    (hb : b ∈ keys rest) : (getRel (relStep es c rest) c.1 b).isSome := by
  induction rest generalizing es with
  | nil => simp [keys] at hb
  | cons d tail ih =>
    have step : relStep es c (d :: tail) =
        relStep (upsertRel es c.1 d.1 (min c.2 d.2)) c tail := rfl
    rw [step]
    rw [keys_cons] at hb
    by_cases hd : d.1 = b
    · refine getRel_relStep_isSome tail c _ c.1 b ?_
      rw [← hd]
      exact getRel_upsertRel_self es c.1 d.1 (min c.2 d.2)
    · have hb' : b ∈ keys tail := by
        rcases List.mem_cons.mp hb with h | h
        · exact absurd h.symm hd
        · exact h
      exact ih _ hb'

theorem getRel_createCCR_exists (cs : List (String × Nat))
    (es : List ((String × String) × Nat)) (a b : String)
    (ha : a ∈ keys cs) (hb : b ∈ keys cs) (hne : a ≠ b) :
    (getRel (createConceptRelationships es cs) a b).isSome := by
  induction cs generalizing es with
  | nil => simp [keys] at ha
  | cons c rest ih =>
    have step : createConceptRelationships es (c :: rest) =
        createConceptRelationships (relStep es c rest) rest := rfl
    rw [step]
    rw [keys_cons] at ha hb
    rcases List.mem_cons.mp ha with hac | har
    · rcases List.mem_cons.mp hb with hbc | hbr
      · exact absurd (hac.trans hbc.symm) hne
      · refine getRel_createCCR_isSome rest _ a b ?_
        rw [hac]
        exact getRel_relStep_self rest c es b hbr
    · rcases List.mem_cons.mp hb with hbc | hbr
      · refine getRel_createCCR_isSome rest _ a b ?_
        rw [getRel_comm, hbc]
        exact getRel_relStep_self rest c es a har
      · exact ih _ har hbr

theorem countRel_relStep_le_one (rest : List (String × Nat)) (c : String × Nat)
    (es : List ((String × String) × Nat)) (a b : String)
    (h : countRel es a b ≤ 1) : countRel (relStep es c rest) a b ≤ 1 := by
  induction rest generalizing es with
  | nil => exact h
  | cons d tail ih =>
    have step : relStep es c (d :: tail) =
        relStep (upsertRel es c.1 d.1 (min c.2 d.2)) c tail := rfl
    rw [step]
    exact ih _ (countRel_upsertRel_le_one es a b c.1 d.1 (min c.2 d.2) h)

theorem countRel_createCCR_le_one (cs : List (String × Nat))
    (es : List ((String × String) × Nat)) (a b : String)
    (h : countRel es a b ≤ 1) :
    countRel (createConceptRelationships es cs) a b ≤ 1 := by
  induction cs generalizing es with
  | nil => exact h
  | cons c rest ih =>
    have step : createConceptRelationships es (c :: rest) =
        createConceptRelationships (relStep es c rest) rest := rfl
    rw [step]
    exact ih _ (countRel_relStep_le_one rest c es a b h)

end KG

/-- C5: automatic mode selection counts the question's overlap with the
fixed global indicator set (overall, general, compare, analyze, overview,
summary, trend, pattern) and the fixed local indicator set (specific,
detail, who, what, when, where, how), and chooses global exactly when the
global count strictly exceeds the local count (ties resolve to local); the
question "Give me an overview of the major trends" selects global mode and
"Who founded the company?" selects local mode. -/
theorem claim_C5_mode_selection :
    (∀ q : String, KG.determineSearchMode q = "global" ↔
      KG.indicatorScore KG.localIndicators q <
        KG.indicatorScore KG.globalIndicators q) ∧
    (∀ q : String, KG.determineSearchMode q = "local" ↔
      ¬ KG.indicatorScore KG.localIndicators q <
        KG.indicatorScore KG.globalIndicators q) ∧
    KG.determineSearchMode "Give me an overview of the major trends" = "global" ∧
    KG.determineSearchMode "Who founded the company?" = "local" := by
  refine ⟨?_, ?_, by decide, by decide⟩
  · intro q
    unfold KG.determineSearchMode
    by_cases h : KG.indicatorScore KG.localIndicators q <
        KG.indicatorScore KG.globalIndicators q <;> simp [h]
  · intro q
    unfold KG.determineSearchMode
    by_cases h : KG.indicatorScore KG.localIndicators q <
        KG.indicatorScore KG.globalIndicators q <;> simp [h]

/-- C2: an ingestion whose content would push the cumulative corpus size
over the configured ceiling is rejected (`null` result) before any graph
mutation: the CLI state — and with it the graph's node and edge counts —
is exactly what it was before the attempt.  Both the file path (checked
against the file's stat size) and the URL path (checked against the
stripped content length) reject this way. -/
theorem claim_C2_size_ceiling (st : P2.CLIState)
    (docId name content url ucontent : String) (statSize : Nat) :
    (st.maxSize < st.totalSize + statSize →
      P2.p2IngestFile st docId name content statSize = (none, st) ∧
      (P2.p2IngestFile st docId name content statSize).2.graph.nodeCount =
        st.graph.nodeCount ∧
      (P2.p2IngestFile st docId name content statSize).2.graph.edgeCount =
        st.graph.edgeCount) ∧
    (st.maxSize < st.totalSize + ucontent.length →
      P2.p2IngestUrl st docId url ucontent = (none, st) ∧
      (P2.p2IngestUrl st docId url ucontent).2.graph.nodeCount =
        st.graph.nodeCount ∧
      (P2.p2IngestUrl st docId url ucontent).2.graph.edgeCount =
        st.graph.edgeCount) := by
  constructor
  · intro h
    have hchk : P2.checkSizeLimit st statSize = false := by
      simp [P2.checkSizeLimit, h]
    have hres : P2.p2IngestFile st docId name content statSize = (none, st) := by
      simp [P2.p2IngestFile, hchk]
    exact ⟨hres, by rw [hres], by rw [hres]⟩
  · intro h
    have hchk : P2.checkSizeLimit st ucontent.length = false := by
      simp [P2.checkSizeLimit, h]
    have hres : P2.p2IngestUrl st docId url ucontent = (none, st) := by
      simp [P2.p2IngestUrl, hchk]
    exact ⟨hres, by rw [hres], by rw [hres]⟩

/-- C2 witness: a state 8 bytes into a 10-byte ceiling rejects a 5-byte
file and is left untouched. -/
theorem claim_C2_size_ceiling_witness :
    P2.p2IngestFile ⟨8, 10, ⟨[("d0", "doc0", "c0")], [("alpha", 1)], [], []⟩⟩
      "d1" "doc1" "hello" 5 =
      (none, ⟨8, 10, ⟨[("d0", "doc0", "c0")], [("alpha", 1)], [], []⟩⟩) :=
  ((claim_C2_size_ceiling ⟨8, 10, ⟨[("d0", "doc0", "c0")], [("alpha", 1)], [], []⟩⟩
    "d1" "doc1" "hello" "" "" 5).1 (by decide)).1

/-- C6: when a question's tokens, after dropping stop words and tokens of
length at most 2, leave no key terms, `localSearch` returns the "need a
more specific question" result as a normal value and performs none of the
repository's search operations. -/
theorem claim_C6_empty_keyterms (stop : List String) (stem : String → String)
    (st : KG.KGStorage) (question : String) (tokens : List String)
    (h : KG.keyTermsOf stop stem tokens = []) :
    KG.localSearch stop stem st question tokens =
      ("Please provide a more specific question with meaningful terms.", []) := by
  unfold KG.localSearch
  simp [h]

/-- C6 witness: a question made only of stop words short-circuits. -/
theorem claim_C6_empty_keyterms_witness :
    KG.localSearch ["the", "and", "of"] id
      ⟨fun _ => [], fun _ => [], fun _ => []⟩ "the and of"
      ["the", "and", "of"] =
      ("Please provide a more specific question with meaningful terms.", []) :=
  claim_C6_empty_keyterms ["the", "and", "of"] id
    ⟨fun _ => [], fun _ => [], fun _ => []⟩ "the and of"
    ["the", "and", "of"] (by decide)

/-- C8: a storage-access failure during query processing is caught and
converted into the user-facing "Error occurred while searching" result: a
failing concept read, a failing document read, and in general any failing
pipeline all yield `errorResult` instead of propagating the failure. -/
theorem claim_C8_query_error_containment :
    (∀ (st : P2.P2Storage) (q e : String),
      st.findConcepts (P2.queryWords q) = Except.error e →
      P2.p2QueryGraph st q = P2.errorResult) ∧
    (∀ (st : P2.P2Storage) (q e : String) (rc : List (String × Nat)),
      st.findConcepts (P2.queryWords q) = Except.ok rc → rc.isEmpty = false →
      st.findDocs (rc.map (·.1)) = Except.error e →
      P2.p2QueryGraph st q = P2.errorResult) ∧
    (∀ (st : P2.P2Storage) (q : String),
      (P2.p2QueryPipeline st q).isOk = false →
      P2.p2QueryGraph st q = P2.errorResult) := by
  have hgen : ∀ (st : P2.P2Storage) (q : String),
      (P2.p2QueryPipeline st q).isOk = false →
      P2.p2QueryGraph st q = P2.errorResult := by
    intro st q h
    unfold P2.p2QueryGraph
    cases hp : P2.p2QueryPipeline st q with
    | ok r => rw [hp] at h; simp [Except.isOk, Except.toBool] at h
    | error e => rfl
  refine ⟨?_, ?_, hgen⟩
  · intro st q e h
    apply hgen
    simp [P2.p2QueryPipeline, Bind.bind, Except.bind, h, Except.isOk, Except.toBool]
  · intro st q e rc hok hne hdocs
    apply hgen
    simp [P2.p2QueryPipeline, Bind.bind, Except.bind, hok, hne, hdocs,
      Except.isOk, Except.toBool]

/-- C8 witness: a storage that always throws yields the error answer. -/
theorem claim_C8_query_error_containment_witness :
    P2.p2QueryGraph ⟨fun _ => Except.error "boom", fun _ => Except.error "boom"⟩
      "What is artificial intelligence?" = P2.errorResult :=
  claim_C8_query_error_containment.1
    ⟨fun _ => Except.error "boom", fun _ => Except.error "boom"⟩
    "What is artificial intelligence?" "boom" rfl

/-- Extracted concept names are pairwise distinct. -/
theorem extractConcepts_keys_nodup (tok : String → List String)
    (stem : String → String) (stop : List String) (text : String) :
    (keys (KG.extractConcepts tok stem stop text)).Nodup := by
  show (keys ((sortDesc ((countStems (((tok (lowerStr text)).filter
    (KG.tokenKeep stop)).map stem)).filter KG.conceptKeep)).take 50)).Nodup
  set stems := ((tok (lowerStr text)).filter (KG.tokenKeep stop)).map stem
  have h1 : (keys (countStems stems)).Nodup := keys_countStems_nodup stems
  have hsub : List.Sublist ((countStems stems).filter KG.conceptKeep)
      (countStems stems) := List.filter_sublist _
  have h2 : (keys ((countStems stems).filter KG.conceptKeep)).Nodup :=
    List.Nodup.sublist (hsub.map Prod.fst) h1
  have hperm : List.Perm
      (keys (sortDesc ((countStems stems).filter KG.conceptKeep)))
      (keys ((countStems stems).filter KG.conceptKeep)) :=
    (sortDesc_perm _).map Prod.fst
  have h3 : (keys (sortDesc ((countStems stems).filter KG.conceptKeep))).Nodup :=
    hperm.symm.nodup h2
  exact List.Nodup.sublist ((List.take_sublist _ _).map Prod.fst) h3

/-- Extracted concept frequencies are at least 1. -/
theorem extractConcepts_pos (tok : String → List String)
    (stem : String → String) (stop : List String) (text : String) :
    ∀ p ∈ KG.extractConcepts tok stem stop text, 1 ≤ p.2 := by
  unfold KG.extractConcepts
  intro p hp
  have h1 := List.mem_of_mem_take hp
  have h2 := (sortDesc_perm _).mem_iff.mp h1
  have h3 := List.mem_of_mem_filter h2
  exact pos_countStems _ p h3

/-- C4: `extractConcepts` returns a sequence of (name, frequency) pairs,
deduplicated by name, each kept exactly when its frequency exceeds 1 or its
name is longer than 4 characters, sorted by descending frequency with a
stable (insertion-order) secondary tie-break, and capped at 50 elements. -/
theorem claim_C4_extract_contract (tok : String → List String)
    (stem : String → String) (stop : List String) (text : String) :
    (keys (KG.extractConcepts tok stem stop text)).Nodup ∧
    (∀ p ∈ KG.extractConcepts tok stem stop text, 1 < p.2 ∨ 4 < p.1.length) ∧
    (KG.extractConcepts tok stem stop text).Pairwise (fun a b => b.2 ≤ a.2) ∧
    (KG.extractConcepts tok stem stop text).length ≤ 50 ∧
    KG.extractConcepts tok stem stop text =
      (KG.extractSorted tok stem stop text).take 50 ∧
    (∀ p, p ∈ KG.extractSorted tok stem stop text ↔
      p ∈ KG.extractCounted tok stem stop text ∧ (1 < p.2 ∨ 4 < p.1.length)) ∧
    (∀ k, (KG.extractSorted tok stem stop text).filter (fun q => q.2 == k) =
      ((KG.extractCounted tok stem stop text).filter KG.conceptKeep).filter
        (fun q => q.2 == k)) := by
  have hkeep : ∀ p : String × Nat,
      KG.conceptKeep p = true ↔ (1 < p.2 ∨ 4 < p.1.length) := by
    intro p
    simp [KG.conceptKeep]
  refine ⟨extractConcepts_keys_nodup tok stem stop text, ?_, ?_, ?_, rfl, ?_, ?_⟩
  · intro p hp
    have h1 := List.mem_of_mem_take hp
    have h2 := (sortDesc_perm _).mem_iff.mp h1
    exact (hkeep p).mp (List.of_mem_filter h2)
  · exact List.Pairwise.sublist (List.take_sublist _ _)
      (sortDesc_sorted ((KG.extractCounted tok stem stop text).filter
        KG.conceptKeep))
  · exact List.length_take_le 50 _
  · intro p
    rw [KG.extractSorted, (sortDesc_perm _).mem_iff, List.mem_filter, hkeep p]
  · intro k
    exact sortDesc_stable _ k

/-- C4 witness: a concrete extraction keeps `alpha` (frequency 2) and
`gamma` (length 5), in descending-frequency order, with distinct names. -/
theorem claim_C4_extract_contract_witness :
    (1 < (("alpha", 2) : String × Nat).2 ∨ 4 < ("alpha" : String).length) ∧
    (keys (KG.extractConcepts (splitOn Char.isWhitespace) id []
      "alpha beta alpha gamma")).Nodup :=
  ⟨(claim_C4_extract_contract (splitOn Char.isWhitespace) id []
      "alpha beta alpha gamma").2.1 ("alpha", 2) (by decide),
   (claim_C4_extract_contract (splitOn Char.isWhitespace) id []
      "alpha beta alpha gamma").1⟩

/-- C1: ingesting the same content twice (two Document nodes) leaves each
shared concept's stored frequency at the sum of the two extractions'
frequencies: the merge increments an existing concept by the candidate's
extracted frequency and creates an absent one with that frequency, and no
concept is double-counted within a single ingestion. -/
theorem claim_C1_merge_additive (tok : String → List String)
    (stem : String → String) (stop : List String)
    (text docId1 docId2 : String) :
    (∀ n f, lookupFreq (KG.extractConcepts tok stem stop text) n = some f →
      lookupFreq (KG.ingestDoc (KG.ingestDoc KG.Graph.empty docId1
        (KG.extractConcepts tok stem stop text)) docId2
        (KG.extractConcepts tok stem stop text)).concepts n = some (f + f)) ∧
    (∀ n, lookupFreq (KG.extractConcepts tok stem stop text) n = none →
      lookupFreq (KG.ingestDoc (KG.ingestDoc KG.Graph.empty docId1
        (KG.extractConcepts tok stem stop text)) docId2
        (KG.extractConcepts tok stem stop text)).concepts n = none) ∧
    (∀ (store : List (String × Nat)) (n : String) (f g : Nat),
      lookupFreq store n = some g →
      lookupFreq (KG.upsertConcept store n f) n = some (g + f)) ∧
    (∀ (store : List (String × Nat)) (n : String) (f : Nat),
      lookupFreq store n = none →
      lookupFreq (KG.upsertConcept store n f) n = some f) ∧
    (KG.ingestDoc (KG.ingestDoc KG.Graph.empty docId1
      (KG.extractConcepts tok stem stop text)) docId2
      (KG.extractConcepts tok stem stop text)).docs = [docId1, docId2] := by
  set cs := KG.extractConcepts tok stem stop text with hcs
  set g2 := KG.ingestDoc (KG.ingestDoc KG.Graph.empty docId1 cs) docId2 cs
    with hg2
  have hnd : (keys cs).Nodup := extractConcepts_keys_nodup tok stem stop text
  have hconc : g2.concepts = KG.ingestConcepts (KG.ingestConcepts [] cs) cs := rfl
  have hstep : ∀ (store : List (String × Nat)) (n : String),
      lookupFreq (KG.ingestConcepts store cs) n =
        match lookupFreq cs n with
        | some f => some ((lookupFreq store n).getD 0 + f)
        | none => lookupFreq store n :=
    fun store n => KG.lookupFreq_ingestConcepts cs hnd store n
  refine ⟨?_, ?_, ?_, ?_, rfl⟩
  · intro n f hf
    rw [hconc, hstep, hstep, hf]
    simp [lookupFreq]
  · intro n hf
    rw [hconc, hstep, hstep, hf]
    simp [lookupFreq]
  · intro store n f g hg
    rw [KG.lookupFreq_upsertConcept, if_pos rfl, hg]
    simp
  · intro store n f hg
    rw [KG.lookupFreq_upsertConcept, if_pos rfl, hg]
    simp

/-- C1 witness: ingesting "alpha beta alpha gamma" twice leaves `alpha`
(per-extraction frequency 2) at stored frequency 4. -/
theorem claim_C1_merge_additive_witness :
    lookupFreq (KG.ingestDoc (KG.ingestDoc KG.Graph.empty "d1"
      (KG.extractConcepts (splitOn Char.isWhitespace) id []
        "alpha beta alpha gamma")) "d2"
      (KG.extractConcepts (splitOn Char.isWhitespace) id []
        "alpha beta alpha gamma")).concepts "alpha" = some 4 := by
  have h := (claim_C1_merge_additive (splitOn Char.isWhitespace) id []
    "alpha beta alpha gamma" "d1" "d2").1 "alpha" 2 (by decide)
  simpa using h

/-- C3: RELATED_TO edges are retrievable in either endpoint order, at most
one edge exists per unordered concept pair, an edge exists for every pair
of distinct extracted concepts after `createConceptRelationships`, and an
edge's weight never decreases across further co-occurrence merges. -/
theorem claim_C3_related_to_edges :
    (∀ (es : List ((String × String) × Nat)) (a b : String),
      KG.getRel es a b = KG.getRel es b a) ∧
    (∀ (es : List ((String × String) × Nat)) (cs : List (String × Nat))
        (a b : String), KG.countRel es a b ≤ 1 →
      KG.countRel (KG.createConceptRelationships es cs) a b ≤ 1) ∧
    (∀ (cs : List (String × Nat)) (es : List ((String × String) × Nat))
        (a b : String), a ∈ keys cs → b ∈ keys cs → a ≠ b →
      (KG.getRel (KG.createConceptRelationships es cs) a b).isSome) ∧
    (∀ (cs : List (String × Nat)) (es : List ((String × String) × Nat))
        (a b : String) (v : Nat), KG.getRel es a b = some v →
      ∃ v', KG.getRel (KG.createConceptRelationships es cs) a b = some v' ∧
        v ≤ v') := by
  refine ⟨KG.getRel_comm, ?_, ?_, ?_⟩
  · intro es cs a b h
    exact KG.countRel_createCCR_le_one cs es a b h
  · intro cs es a b ha hb hne
    exact KG.getRel_createCCR_exists cs es a b ha hb hne
  · intro cs es a b v h
    exact KG.getRel_createCCR_mono cs es a b v h

/-- C3 witness: relating the concrete candidates `alpha` and `gamma`
creates a retrievable edge and keeps the pair unique. -/
theorem claim_C3_related_to_edges_witness :
    (KG.getRel (KG.createConceptRelationships [] [("alpha", 2), ("gamma", 1)])
      "alpha" "gamma").isSome ∧
    KG.countRel (KG.createConceptRelationships [] [("alpha", 2), ("gamma", 1)])
      "alpha" "gamma" ≤ 1 :=
  ⟨claim_C3_related_to_edges.2.2.1 [("alpha", 2), ("gamma", 1)] [] "alpha"
    "gamma" (by decide) (by decide) (by decide),
   claim_C3_related_to_edges.2.1 [] [("alpha", 2), ("gamma", 1)] "alpha"
    "gamma" (by decide)⟩

theorem ingestFile_noclear_didClear (tok : String → List String)
    (stem : String → String) (stop : List String) (maxFileSize : Nat)
    (g : KG.Graph) (docId : String) (size : Nat) (text : String) :
    (KG.ingestFile tok stem stop maxFileSize g false docId size text).didClear =
      false := by
  unfold KG.ingestFile
  split <;> rfl

theorem ingestFile_noclear_docs (tok : String → List String)
    (stem : String → String) (stop : List String) (maxFileSize : Nat)
    (g : KG.Graph) (docId : String) (size : Nat) (text : String) (d : String)
    (hd : d ∈ g.docs) :
    d ∈ (KG.ingestFile tok stem stop maxFileSize g false docId size text).graph.docs := by
  unfold KG.ingestFile
  split
  · exact hd
  · exact List.mem_append_left _ hd

theorem ingestFile_noclear_concepts (tok : String → List String)
    (stem : String → String) (stop : List String) (maxFileSize : Nat)
    (g : KG.Graph) (docId : String) (size : Nat) (text : String) (n : String)
    (hn : (lookupFreq g.concepts n).isSome) :
    (lookupFreq (KG.ingestFile tok stem stop maxFileSize g false docId size
      text).graph.concepts n).isSome := by
  unfold KG.ingestFile
  split
  · exact hn
  · exact KG.lookupFreq_ingestConcepts_isSome _ _ n hn

theorem batch_tail_eq (tok : String → List String) (stem : String → String)
    (stop : List String) (maxFileSize : Nat) (clear : Bool)
    (items : List (String × Nat × String)) (g : KG.Graph) (z : Nat) :
    items.foldl (KG.batchStep tok stem stop maxFileSize clear) (g, false, z) =
      (KG.runRest tok stem stop maxFileSize g items, false, z) := by
  induction items generalizing g with
  | nil => simp [KG.runRest]
  | cons it rest ih =>
    simp only [List.foldl_cons, KG.batchStep, Bool.and_false,
      ingestFile_noclear_didClear, Bool.false_eq_true, if_false, Nat.add_zero]
    rw [ih]
    simp [KG.runRest]

theorem runRest_docs (tok : String → List String) (stem : String → String)
    (stop : List String) (maxFileSize : Nat)
    (items : List (String × Nat × String)) (g : KG.Graph) (d : String)
    (hd : d ∈ g.docs) :
    d ∈ (KG.runRest tok stem stop maxFileSize g items).docs := by
  induction items generalizing g with
  | nil => simpa [KG.runRest] using hd
  | cons it rest ih =>
    simp only [KG.runRest, List.foldl_cons]
    exact ih _ (ingestFile_noclear_docs tok stem stop maxFileSize g it.1
      it.2.1 it.2.2 d hd)

theorem runRest_concepts (tok : String → List String) (stem : String → String)
    (stop : List String) (maxFileSize : Nat)
    (items : List (String × Nat × String)) (g : KG.Graph) (n : String)
    (hn : (lookupFreq g.concepts n).isSome) :
    (lookupFreq (KG.runRest tok stem stop maxFileSize g items).concepts n).isSome := by
  induction items generalizing g with
  | nil => simpa [KG.runRest] using hn
  | cons it rest ih =>
    simp only [KG.runRest, List.foldl_cons]
    exact ih _ (ingestFile_noclear_concepts tok stem stop maxFileSize g it.1
      it.2.1 it.2.2 n hn)

/-- C10: in a multi-source ingest batch with the clear flag, the graph-wide
clear runs at most once and only as part of the first source (every later
source is ingested with the flag off), so Document and Concept nodes
created by earlier sources of the batch survive every later source. -/
theorem claim_C10_batch_clear_once (tok : String → List String)
    (stem : String → String) (stop : List String) (maxFileSize : Nat) :
    (∀ (g : KG.Graph) (clear : Bool) (items : List (String × Nat × String)),
      (KG.runBatch tok stem stop maxFileSize g clear items).2 ≤ 1) ∧
    (∀ (g : KG.Graph) (clear : Bool) (it : String × Nat × String)
        (rest : List (String × Nat × String)),
      KG.runBatch tok stem stop maxFileSize g clear (it :: rest) =
        (KG.runRest tok stem stop maxFileSize
          (KG.ingestFile tok stem stop maxFileSize g clear it.1 it.2.1
            it.2.2).graph rest,
         if (KG.ingestFile tok stem stop maxFileSize g clear it.1 it.2.1
            it.2.2).didClear then 1 else 0)) ∧
    (∀ (g : KG.Graph) (items : List (String × Nat × String)) (d : String),
      d ∈ g.docs → d ∈ (KG.runRest tok stem stop maxFileSize g items).docs) ∧
    (∀ (g : KG.Graph) (items : List (String × Nat × String)) (n : String),
      (lookupFreq g.concepts n).isSome →
      (lookupFreq (KG.runRest tok stem stop maxFileSize g items).concepts
        n).isSome) := by
  have hcons : ∀ (g : KG.Graph) (clear : Bool) (it : String × Nat × String)
      (rest : List (String × Nat × String)),
      KG.runBatch tok stem stop maxFileSize g clear (it :: rest) =
        (KG.runRest tok stem stop maxFileSize
          (KG.ingestFile tok stem stop maxFileSize g clear it.1 it.2.1
            it.2.2).graph rest,
         if (KG.ingestFile tok stem stop maxFileSize g clear it.1 it.2.1
            it.2.2).didClear then 1 else 0) := by
    intro g clear it rest
    unfold KG.runBatch
    simp only [List.foldl_cons, KG.batchStep, Bool.and_true, Nat.zero_add]
    rw [batch_tail_eq]
  refine ⟨?_, hcons, ?_, ?_⟩
  · intro g clear items
    cases items with
    | nil => simp [KG.runBatch]
    | cons it rest =>
      rw [hcons]
      split <;> omega
  · intro g items d hd
    exact runRest_docs tok stem stop maxFileSize items g d hd
  · intro g items n hn
    exact runRest_concepts tok stem stop maxFileSize items g n hn

/-- C10 witness: a document node from an earlier batch source survives a
later source, and a concrete two-source batch with the clear flag clears at
most once. -/
theorem claim_C10_batch_clear_once_witness :
    "d1" ∈ (KG.runRest (splitOn Char.isWhitespace) id [] 100
      ⟨["d1"], [("alpha", 2)], [], []⟩ [("d2", 0, "beta beta")]).docs ∧
    (KG.runBatch (splitOn Char.isWhitespace) id [] 100 KG.Graph.empty true
      [("d1", 0, "alpha alpha"), ("d2", 0, "beta beta")]).2 ≤ 1 :=
  ⟨(claim_C10_batch_clear_once (splitOn Char.isWhitespace) id [] 100).2.2.1
      ⟨["d1"], [("alpha", 2)], [], []⟩ [("d2", 0, "beta beta")] "d1" (by decide),
   (claim_C10_batch_clear_once (splitOn Char.isWhitespace) id [] 100).1
      KG.Graph.empty true [("d1", 0, "alpha alpha"), ("d2", 0, "beta beta")]⟩

/-- C9: both community-detection algorithms label every Entity node and are
idempotent (re-running overwrites the labels deterministically); under the
primary connected-components algorithm, three concepts with edges A–B and
B–C and no edge A–C form one community of size 3, and an isolated concept D
forms its own community of size 1. -/
theorem claim_C9_communities :
    (∀ (ns : List KG.ENode) (edges : List (String × String)),
      ∀ n ∈ KG.detectWCC ns edges, n.community.isSome) ∧
    (∀ ns : List KG.ENode, ∀ n ∈ KG.detectFallback ns, n.community.isSome) ∧
    (∀ (ns : List KG.ENode) (edges : List (String × String)),
      KG.detectWCC (KG.detectWCC ns edges) edges = KG.detectWCC ns edges) ∧
    (∀ ns : List KG.ENode,
      KG.detectFallback (KG.detectFallback ns) = KG.detectFallback ns) ∧
    (KG.communitySize (KG.detectWCC
        [⟨"A", "CONCEPT", none⟩, ⟨"B", "CONCEPT", none⟩,
         ⟨"C", "CONCEPT", none⟩, ⟨"D", "CONCEPT", none⟩]
        [("A", "B"), ("B", "C")])
      "A" = 3 ∧
     KG.communitySize (KG.detectWCC
        [⟨"A", "CONCEPT", none⟩, ⟨"B", "CONCEPT", none⟩,
         ⟨"C", "CONCEPT", none⟩, ⟨"D", "CONCEPT", none⟩]
        [("A", "B"), ("B", "C")])
      "D" = 1 ∧
     (KG.detectWCC
        [⟨"A", "CONCEPT", none⟩, ⟨"B", "CONCEPT", none⟩,
         ⟨"C", "CONCEPT", none⟩, ⟨"D", "CONCEPT", none⟩]
        [("A", "B"), ("B", "C")]).map (fun n => n.community) =
       [some "A", some "A", some "A", some "D"]) := by
  refine ⟨?_, ?_, ?_, ?_, by decide, by decide, by decide⟩
  · intro ns edges n hn
    obtain ⟨m, _, rfl⟩ := List.mem_map.mp hn
    rfl
  · intro ns n hn
    obtain ⟨m, _, rfl⟩ := List.mem_map.mp hn
    rfl
  · intro ns edges
    unfold KG.detectWCC
    simp only [List.map_map]
    rfl
  · intro ns
    unfold KG.detectFallback
    simp only [List.map_map]
    rfl

/-- C9 witness: in the concrete A–B–C plus isolated D graph, the written
node for A carries a community label. -/
theorem claim_C9_communities_witness :
    (KG.ENode.mk "A" "CONCEPT" (some "A")).community.isSome :=
  claim_C9_communities.1
    [⟨"A", "CONCEPT", none⟩, ⟨"B", "CONCEPT", none⟩,
     ⟨"C", "CONCEPT", none⟩, ⟨"D", "CONCEPT", none⟩]
    [("A", "B"), ("B", "C")] ⟨"A", "CONCEPT", some "A"⟩ (by decide)

theorem bestExcerpt_eq_foldl (qw cn : List String) (contents : List String)
    (acc : String × Nat) :
    contents.foldl
      (fun acc c => (P2.candidateSents c).foldl (P2.betterSent qw cn) acc) acc =
    (contents.flatMap P2.candidateSents).foldl (P2.betterSent qw cn) acc := by
  induction contents generalizing acc with
  | nil => rfl
  | cons c rest ih =>
    simp only [List.foldl_cons, List.flatMap_cons, List.foldl_append]
    exact ih _

theorem betterSent_fold_inv (qw cn : List String) (l : List String)
    (pre : List String) (acc : String × Nat)
    (h1 : acc = ("", 0) ∨ ∃ s ∈ pre, acc.1 = strTrim s ∧
      30 < (strTrim s).length ∧ acc.2 = P2.sentenceScore2 qw cn s)
    (h2 : ∀ s ∈ pre, 30 < (strTrim s).length →
      P2.sentenceScore2 qw cn s ≤ acc.2) :
    (l.foldl (P2.betterSent qw cn) acc = ("", 0) ∨
      ∃ s ∈ pre ++ l, (l.foldl (P2.betterSent qw cn) acc).1 = strTrim s ∧
        30 < (strTrim s).length ∧
        (l.foldl (P2.betterSent qw cn) acc).2 = P2.sentenceScore2 qw cn s) ∧
    (∀ s ∈ pre ++ l, 30 < (strTrim s).length →
      P2.sentenceScore2 qw cn s ≤ (l.foldl (P2.betterSent qw cn) acc).2) := by
  induction l generalizing pre acc with
  | nil =>
    constructor
    · rcases h1 with h | ⟨s, hs, h⟩
      · exact Or.inl h
      · exact Or.inr ⟨s, by simpa using hs, h⟩
    · intro s hs hlen
      exact h2 s (by simpa using hs) hlen
  | cons t rest ih =>
    simp only [List.foldl_cons]
    by_cases hcond : acc.2 < P2.sentenceScore2 qw cn t ∧ 30 < (strTrim t).length
    · have hbt : P2.betterSent qw cn acc t =
          (strTrim t, P2.sentenceScore2 qw cn t) := by
        simp only [P2.betterSent]
        rw [if_pos hcond]
      have h1' : (strTrim t, P2.sentenceScore2 qw cn t) = ("", 0) ∨
          ∃ s ∈ pre ++ [t],
            ((strTrim t, P2.sentenceScore2 qw cn t) : String × Nat).1 = strTrim s ∧
            30 < (strTrim s).length ∧
            ((strTrim t, P2.sentenceScore2 qw cn t) : String × Nat).2 =
              P2.sentenceScore2 qw cn s :=
        Or.inr ⟨t, List.mem_append_right _ (by simp), rfl, hcond.2, rfl⟩
      have h2' : ∀ s ∈ pre ++ [t], 30 < (strTrim s).length →
          P2.sentenceScore2 qw cn s ≤
            ((strTrim t, P2.sentenceScore2 qw cn t) : String × Nat).2 := by
        intro s hs hlen
        rcases List.mem_append.mp hs with hsp | hst
        · have hle := h2 s hsp hlen
          have hlt := hcond.1
          simp only
          omega
        · have hst' : s = t := by simpa using hst
          subst hst'
          simp
      rw [hbt]
      have hstep := ih (pre ++ [t]) _ h1' h2'
      constructor
      · rcases hstep.1 with h | ⟨s, hs, h⟩
        · exact Or.inl h
        · refine Or.inr ⟨s, ?_, h⟩
          simpa [List.append_assoc] using hs
      · intro s hs hlen
        refine hstep.2 s ?_ hlen
        simpa [List.append_assoc] using hs
    · have hbt : P2.betterSent qw cn acc t = acc := by
        simp only [P2.betterSent]
        rw [if_neg hcond]
      have h1' : acc = ("", 0) ∨
          ∃ s ∈ pre ++ [t], acc.1 = strTrim s ∧ 30 < (strTrim s).length ∧
            acc.2 = P2.sentenceScore2 qw cn s := by
        rcases h1 with h | ⟨s, hs, h⟩
        · exact Or.inl h
        · exact Or.inr ⟨s, List.mem_append_left _ hs, h⟩
      have h2' : ∀ s ∈ pre ++ [t], 30 < (strTrim s).length →
          P2.sentenceScore2 qw cn s ≤ acc.2 := by
        intro s hs hlen
        rcases List.mem_append.mp hs with hsp | hst
        · exact h2 s hsp hlen
        · have hst' : s = t := by simpa using hst
          subst hst'
          have hnlt : ¬ acc.2 < P2.sentenceScore2 qw cn s :=
            fun hlt => hcond ⟨hlt, hlen⟩
          omega
      rw [hbt]
      have hstep := ih (pre ++ [t]) _ h1' h2'
      constructor
      · rcases hstep.1 with h | ⟨s, hs, h⟩
        · exact Or.inl h
        · refine Or.inr ⟨s, ?_, h⟩
          simpa [List.append_assoc] using hs
      · intro s hs hlen
        refine hstep.2 s ?_ hlen
        simpa [List.append_assoc] using hs

/-- C7 counterexample: the claim's "sentence of at least 30 characters" is
wrong for the code — a sentence whose trimmed length is exactly 30 is
never kept.  For the document "artificial intelligence stones." and the
question "What is artificial intelligence?", the sentence (trimmed length
exactly 30, doubled score 12) is selected by the claim's inclusive-threshold
procedure but the code keeps no excerpt at all. -/
theorem claim_C7_counterexample :
    P2.bestExcerpt (P2.queryWords "What is artificial intelligence?")
      ["artificial", "intelligence"] ["artificial intelligence stones."] =
      ("", 0) ∧
    P2.bestExcerptSpec (P2.queryWords "What is artificial intelligence?")
      ["artificial", "intelligence"] ["artificial intelligence stones."] =
      ("artificial intelligence stones", 12) ∧
    (strTrim "artificial intelligence stones").length = 30 ∧
    (P2.bestExcerpt (P2.queryWords "What is artificial intelligence?")
      ["artificial", "intelligence"] ["artificial intelligence stones."]).1 ≠
    (P2.bestExcerptSpec (P2.queryWords "What is artificial intelligence?")
      ["artificial", "intelligence"] ["artificial intelligence stones."]).1 := by
  refine ⟨by decide, by decide, by decide, by decide⟩

/-- C7 (amended): the excerpt is chosen by splitting each top document into
sentences whose trimmed length strictly exceeds 20, scoring each with +2
per question key term contained and +1 per matched concept name contained
with a ×1.5 bonus when the raw score exceeds 2 (scores stored doubled),
and keeping the single highest-scoring sentence whose trimmed length
strictly exceeds 30; the split strips the terminating punctuation, so for
the document "Artificial intelligence enables automated reasoning." and the
question "What is artificial intelligence?" the excerpt is exactly
"Artificial intelligence enables automated reasoning" (no final period). -/
theorem claim_C7_amended_excerpt :
    (∀ (qw cn contents : List String),
      P2.bestExcerpt qw cn contents = ("", 0) ∨
      ∃ c ∈ contents, ∃ s ∈ P2.candidateSents c,
        (P2.bestExcerpt qw cn contents).1 = strTrim s ∧
        30 < (strTrim s).length ∧
        (P2.bestExcerpt qw cn contents).2 = P2.sentenceScore2 qw cn s) ∧
    (∀ (qw cn contents : List String) (c s : String),
      c ∈ contents → s ∈ P2.candidateSents c → 30 < (strTrim s).length →
      P2.sentenceScore2 qw cn s ≤ (P2.bestExcerpt qw cn contents).2) ∧
    P2.bestExcerpt (P2.queryWords "What is artificial intelligence?")
      ["artificial", "intelligence"]
      ["Artificial intelligence enables automated reasoning."] =
      ("Artificial intelligence enables automated reasoning", 12) := by
  refine ⟨?_, ?_, by decide⟩
  · intro qw cn contents
    have hfold : P2.bestExcerpt qw cn contents =
        (contents.flatMap P2.candidateSents).foldl (P2.betterSent qw cn)
          ("", 0) := bestExcerpt_eq_foldl qw cn contents ("", 0)
    have inv := betterSent_fold_inv qw cn (contents.flatMap P2.candidateSents)
      [] ("", 0) (Or.inl rfl) (by simp)
    rw [hfold]
    rcases inv.1 with h | ⟨s, hs, h⟩
    · exact Or.inl h
    · refine Or.inr ?_
      simp only [List.nil_append] at hs
      obtain ⟨c, hc, hsc⟩ := List.mem_flatMap.mp hs
      exact ⟨c, hc, s, hsc, h⟩
  · intro qw cn contents c s hc hs hlen
    have hfold : P2.bestExcerpt qw cn contents =
        (contents.flatMap P2.candidateSents).foldl (P2.betterSent qw cn)
          ("", 0) := bestExcerpt_eq_foldl qw cn contents ("", 0)
    have inv := betterSent_fold_inv qw cn (contents.flatMap P2.candidateSents)
      [] ("", 0) (Or.inl rfl) (by simp)
    rw [hfold]
    refine inv.2 s ?_ hlen
    simp only [List.nil_append]
    exact List.mem_flatMap.mpr ⟨c, hc, hs⟩

/-- C7 witness: in the concrete example the kept excerpt's doubled score 12
dominates the only qualifying sentence. -/
theorem claim_C7_amended_excerpt_witness :
    P2.sentenceScore2 (P2.queryWords "What is artificial intelligence?")
      ["artificial", "intelligence"]
      "Artificial intelligence enables automated reasoning" ≤
    (P2.bestExcerpt (P2.queryWords "What is artificial intelligence?")
      ["artificial", "intelligence"]
      ["Artificial intelligence enables automated reasoning."]).2 :=
  claim_C7_amended_excerpt.2.1
    (P2.queryWords "What is artificial intelligence?")
    ["artificial", "intelligence"]
    ["Artificial intelligence enables automated reasoning."]
    "Artificial intelligence enables automated reasoning."
    "Artificial intelligence enables automated reasoning"
    (by decide) (by decide) (by decide)

end KGV
